import Mathlib

/-!
Shallow embedding of `amethyst_rendy/src/visibility.rs` (frustum culling and
visibility sorting) and proofs of the specification claims about it.

Scalars: `f32` values are modelled as rationals `ℚ` (for the run pipeline,
which must be executable) and as reals `ℝ` (for the plane-normalization
claim, which involves a square root).  A possibly-NaN `f32` (the squared
camera distance fed to the sort comparator) is modelled as `Option ℚ`,
`none` standing for NaN / an unorderable value.  `Frustum::new` calls the
square-root function of the float library; the embedding takes that
function as an explicit parameter `sqrt`, instantiated with `Real.sqrt`
over `ℝ` and with an arbitrary function in executable witnesses (none of
the run-level claims depend on its values).
-/

/-- 3-component vector, `nalgebra::Point3` / `Vector3`. -/
structure Vec3 (α : Type) where
  x : α
  y : α
  z : α
deriving DecidableEq, Repr

/-- 4-component vector, `nalgebra::Vector4`. -/
structure Vec4 (α : Type) where
  x : α
  y : α
  z : α
  w : α
deriving DecidableEq, Repr

/-- `Point3::origin()`. -/
def Vec3.origin {α : Type} [LinearOrderedField α] : Vec3 α := ⟨0, 0, 0⟩

/-- Componentwise sum of 4-vectors (`matrix.row(3) + matrix.row(i)`). -/
def Vec4.add {α : Type} [LinearOrderedField α] (a b : Vec4 α) : Vec4 α :=
  ⟨a.x + b.x, a.y + b.y, a.z + b.z, a.w + b.w⟩

/-- Componentwise difference of 4-vectors (`matrix.row(3) - matrix.row(i)`). -/
def Vec4.sub {α : Type} [LinearOrderedField α] (a b : Vec4 α) : Vec4 α :=
  ⟨a.x - b.x, a.y - b.y, a.z - b.z, a.w - b.w⟩

/-- Scalar multiple of a 4-vector (`planes[i] * k`). -/
def Vec4.scale {α : Type} [LinearOrderedField α] (a : Vec4 α) (k : α) : Vec4 α :=
  ⟨a.x * k, a.y * k, a.z * k, a.w * k⟩

/-- Dot product of the xyz part of a plane 4-vector with a 3-vector
(`plane.xyz().dot(&center.coords)`). -/
def Vec4.dot3 {α : Type} [LinearOrderedField α] (p : Vec4 α) (v : Vec3 α) : α :=
  p.x * v.x + p.y * v.y + p.z * v.z

/-- Squared magnitude of the xyz part of a plane 4-vector;
`plane.xyz().magnitude()` in the source is the square root of this. -/
def Vec4.xyzSq {α : Type} [LinearOrderedField α] (p : Vec4 α) : α :=
  p.x * p.x + p.y * p.y + p.z * p.z

/-- `nalgebra::distance_squared` between two 3-D points. -/
def distance_squared {α : Type} [LinearOrderedField α] (p q : Vec3 α) : α :=
  (p.x - q.x) * (p.x - q.x) + (p.y - q.y) * (p.y - q.y) + (p.z - q.z) * (p.z - q.z)

/-- 4×4 matrix, `nalgebra::Matrix4`, with explicit entries: `mij` is the
entry at row `i`, column `j` (so `global.0[(0, 0)]` is `m00`). -/
structure Mat4 (α : Type) where
  m00 : α
  m01 : α
  m02 : α
  m03 : α
  m10 : α
  m11 : α
  m12 : α
  m13 : α
  m20 : α
  m21 : α
  m22 : α
  m23 : α
  m30 : α
  m31 : α
  m32 : α
  m33 : α
deriving DecidableEq, Repr

/-- Row 0 of a matrix (`matrix.row(0).transpose()` as a 4-vector). -/
def Mat4.row0 {α : Type} (a : Mat4 α) : Vec4 α := ⟨a.m00, a.m01, a.m02, a.m03⟩

/-- Row 1 of a matrix. -/
def Mat4.row1 {α : Type} (a : Mat4 α) : Vec4 α := ⟨a.m10, a.m11, a.m12, a.m13⟩

/-- Row 2 of a matrix. -/
def Mat4.row2 {α : Type} (a : Mat4 α) : Vec4 α := ⟨a.m20, a.m21, a.m22, a.m23⟩

/-- Row 3 of a matrix. -/
def Mat4.row3 {α : Type} (a : Mat4 α) : Vec4 α := ⟨a.m30, a.m31, a.m32, a.m33⟩

/-- The identity matrix (`GlobalTransform::default()` wraps it). -/
def Mat4.identity {α : Type} [LinearOrderedField α] : Mat4 α :=
  ⟨1, 0, 0, 0,
   0, 1, 0, 0,
   0, 0, 1, 0,
   0, 0, 0, 1⟩

/-- Matrix product `a * b` (`camera.proj * inverse`). -/
def Mat4.mul {α : Type} [LinearOrderedField α] (a b : Mat4 α) : Mat4 α :=
  ⟨a.m00 * b.m00 + a.m01 * b.m10 + a.m02 * b.m20 + a.m03 * b.m30,
   a.m00 * b.m01 + a.m01 * b.m11 + a.m02 * b.m21 + a.m03 * b.m31,
   a.m00 * b.m02 + a.m01 * b.m12 + a.m02 * b.m22 + a.m03 * b.m32,
   a.m00 * b.m03 + a.m01 * b.m13 + a.m02 * b.m23 + a.m03 * b.m33,
   a.m10 * b.m00 + a.m11 * b.m10 + a.m12 * b.m20 + a.m13 * b.m30,
   a.m10 * b.m01 + a.m11 * b.m11 + a.m12 * b.m21 + a.m13 * b.m31,
   a.m10 * b.m02 + a.m11 * b.m12 + a.m12 * b.m22 + a.m13 * b.m32,
   a.m10 * b.m03 + a.m11 * b.m13 + a.m12 * b.m23 + a.m13 * b.m33,
   a.m20 * b.m00 + a.m21 * b.m10 + a.m22 * b.m20 + a.m23 * b.m30,
   a.m20 * b.m01 + a.m21 * b.m11 + a.m22 * b.m21 + a.m23 * b.m31,
   a.m20 * b.m02 + a.m21 * b.m12 + a.m22 * b.m22 + a.m23 * b.m32,
   a.m20 * b.m03 + a.m21 * b.m13 + a.m22 * b.m23 + a.m23 * b.m33,
   a.m30 * b.m00 + a.m31 * b.m10 + a.m32 * b.m20 + a.m33 * b.m30,
   a.m30 * b.m01 + a.m31 * b.m11 + a.m32 * b.m21 + a.m33 * b.m31,
   a.m30 * b.m02 + a.m31 * b.m12 + a.m32 * b.m22 + a.m33 * b.m32,
   a.m30 * b.m03 + a.m31 * b.m13 + a.m32 * b.m23 + a.m33 * b.m33⟩

/-- Determinant of a 3×3 matrix given by its nine entries in row order. -/
def det3 {α : Type} [LinearOrderedField α] (a b c d e f g h i : α) : α :=
  a * (e * i - f * h) - b * (d * i - f * g) + c * (d * h - e * g)

/-- The 3×3 minor of a 4×4 matrix deleting row 0, column 0. -/
def Mat4.minor00 {α : Type} [LinearOrderedField α] (a : Mat4 α) : α :=
  det3 a.m11 a.m12 a.m13 a.m21 a.m22 a.m23 a.m31 a.m32 a.m33

/-- The 3×3 minor deleting row 0, column 1. -/
def Mat4.minor01 {α : Type} [LinearOrderedField α] (a : Mat4 α) : α :=
  det3 a.m10 a.m12 a.m13 a.m20 a.m22 a.m23 a.m30 a.m32 a.m33

/-- The 3×3 minor deleting row 0, column 2. -/
def Mat4.minor02 {α : Type} [LinearOrderedField α] (a : Mat4 α) : α :=
  det3 a.m10 a.m11 a.m13 a.m20 a.m21 a.m23 a.m30 a.m31 a.m33

/-- The 3×3 minor deleting row 0, column 3. -/
def Mat4.minor03 {α : Type} [LinearOrderedField α] (a : Mat4 α) : α :=
  det3 a.m10 a.m11 a.m12 a.m20 a.m21 a.m22 a.m30 a.m31 a.m32

/-- The 3×3 minor deleting row 1, column 0. -/
def Mat4.minor10 {α : Type} [LinearOrderedField α] (a : Mat4 α) : α :=
  det3 a.m01 a.m02 a.m03 a.m21 a.m22 a.m23 a.m31 a.m32 a.m33

/-- The 3×3 minor deleting row 1, column 1. -/
def Mat4.minor11 {α : Type} [LinearOrderedField α] (a : Mat4 α) : α :=
  det3 a.m00 a.m02 a.m03 a.m20 a.m22 a.m23 a.m30 a.m32 a.m33

/-- The 3×3 minor deleting row 1, column 2. -/
def Mat4.minor12 {α : Type} [LinearOrderedField α] (a : Mat4 α) : α :=
  det3 a.m00 a.m01 a.m03 a.m20 a.m21 a.m23 a.m30 a.m31 a.m33

/-- The 3×3 minor deleting row 1, column 3. -/
def Mat4.minor13 {α : Type} [LinearOrderedField α] (a : Mat4 α) : α :=
  det3 a.m00 a.m01 a.m02 a.m20 a.m21 a.m22 a.m30 a.m31 a.m32

/-- The 3×3 minor deleting row 2, column 0. -/
def Mat4.minor20 {α : Type} [LinearOrderedField α] (a : Mat4 α) : α :=
  det3 a.m01 a.m02 a.m03 a.m11 a.m12 a.m13 a.m31 a.m32 a.m33

/-- The 3×3 minor deleting row 2, column 1. -/
def Mat4.minor21 {α : Type} [LinearOrderedField α] (a : Mat4 α) : α :=
  det3 a.m00 a.m02 a.m03 a.m10 a.m12 a.m13 a.m30 a.m32 a.m33

/-- The 3×3 minor deleting row 2, column 2. -/
def Mat4.minor22 {α : Type} [LinearOrderedField α] (a : Mat4 α) : α :=
  det3 a.m00 a.m01 a.m03 a.m10 a.m11 a.m13 a.m30 a.m31 a.m33

/-- The 3×3 minor deleting row 2, column 3. -/
def Mat4.minor23 {α : Type} [LinearOrderedField α] (a : Mat4 α) : α :=
  det3 a.m00 a.m01 a.m02 a.m10 a.m11 a.m12 a.m30 a.m31 a.m32

/-- The 3×3 minor deleting row 3, column 0. -/
def Mat4.minor30 {α : Type} [LinearOrderedField α] (a : Mat4 α) : α :=
  det3 a.m01 a.m02 a.m03 a.m11 a.m12 a.m13 a.m21 a.m22 a.m23

/-- The 3×3 minor deleting row 3, column 1. -/
def Mat4.minor31 {α : Type} [LinearOrderedField α] (a : Mat4 α) : α :=
  det3 a.m00 a.m02 a.m03 a.m10 a.m12 a.m13 a.m20 a.m22 a.m23

/-- The 3×3 minor deleting row 3, column 2. -/
def Mat4.minor32 {α : Type} [LinearOrderedField α] (a : Mat4 α) : α :=
  det3 a.m00 a.m01 a.m03 a.m10 a.m11 a.m13 a.m20 a.m21 a.m23

/-- The 3×3 minor deleting row 3, column 3. -/
def Mat4.minor33 {α : Type} [LinearOrderedField α] (a : Mat4 α) : α :=
  det3 a.m00 a.m01 a.m02 a.m10 a.m11 a.m12 a.m20 a.m21 a.m22

/-- Determinant of a 4×4 matrix (Laplace expansion along the first row). -/
def Mat4.det {α : Type} [LinearOrderedField α] (a : Mat4 α) : α :=
  a.m00 * a.minor00 - a.m01 * a.minor01 + a.m02 * a.minor02 - a.m03 * a.minor03

/-- `nalgebra`'s `Matrix4::try_inverse`: `None` exactly when the determinant
vanishes (the matrix is not invertible), otherwise the inverse by the
adjugate (transposed cofactor) formula. -/
def Mat4.try_inverse {α : Type} [LinearOrderedField α] (a : Mat4 α) : Option (Mat4 α) :=
  if a.det = 0 then none
  else some
    ⟨a.minor00 / a.det, -a.minor10 / a.det, a.minor20 / a.det, -a.minor30 / a.det,
     -a.minor01 / a.det, a.minor11 / a.det, -a.minor21 / a.det, a.minor31 / a.det,
     a.minor02 / a.det, -a.minor12 / a.det, a.minor22 / a.det, -a.minor32 / a.det,
     -a.minor03 / a.det, a.minor13 / a.det, -a.minor23 / a.det, a.minor33 / a.det⟩

/-- `nalgebra`'s `Matrix4::transform_point`: apply the linear part and the
translation, dividing by the transformed homogeneous coordinate `n` when it
is nonzero. -/
def Mat4.transform_point {α : Type} [LinearOrderedField α] (a : Mat4 α) (p : Vec3 α) : Vec3 α :=
  let n := a.m30 * p.x + a.m31 * p.y + a.m32 * p.z + a.m33
  let tx := a.m00 * p.x + a.m01 * p.y + a.m02 * p.z + a.m03
  let ty := a.m10 * p.x + a.m11 * p.y + a.m12 * p.z + a.m13
  let tz := a.m20 * p.x + a.m21 * p.y + a.m22 * p.z + a.m23
  if n = 0 then ⟨tx, ty, tz⟩ else ⟨tx / n, ty / n, tz / n⟩

/-- `struct Frustum { planes: [Vector4<f32>; 6] }` (the list produced by
`Frustum::new` always has six elements). -/
structure Frustum (α : Type) where
  planes : List (Vec4 α)

/-- The six unnormalized plane vectors of `Frustum::new`: the fourth row of
the matrix combined with each other row, once added and once subtracted. -/
def Frustum.rawPlanes {α : Type} [LinearOrderedField α] (a : Mat4 α) : List (Vec4 α) :=
  [a.row3.add a.row0, a.row3.sub a.row0,
   a.row3.sub a.row1, a.row3.add a.row1,
   a.row3.add a.row2, a.row3.sub a.row2]

/-- `Frustum::new`: each raw plane is scaled by `1.0 / plane.xyz().magnitude()`,
where the magnitude is the square root of the squared xyz norm.  The float
square root is the explicit parameter `sqrt`. -/
def Frustum.new {α : Type} [LinearOrderedField α] (sqrt : α → α) (a : Mat4 α) : Frustum α :=
  ⟨(Frustum.rawPlanes a).map fun p => p.scale (1 / sqrt p.xyzSq)⟩

/-- `Frustum::check_sphere`: loop over the planes, returning `false` as soon
as `plane.xyz().dot(&center.coords) + plane.w <= -radius`, else `true`. -/
def Frustum.check_sphere {α : Type} [LinearOrderedField α]
    (f : Frustum α) (center : Vec3 α) (radius : α) : Bool :=
  f.planes.all fun p => !(p.dot3 center + p.w ≤ -radius)

/-- `Ordering` comparison of two rationals: what `f32::partial_cmp` yields
on two non-NaN values. -/
def rcmp (a b : ℚ) : Ordering :=
  if a < b then .lt else if a = b then .eq else .gt

/-- `f32::partial_cmp` on possibly-NaN values (`none` models NaN): `None`
when either operand is unorderable. -/
def pcmp : Option ℚ → Option ℚ → Option Ordering
  | some a, some b => some (rcmp a b)
  | _, _ => none

/-- The transient per-entity record `Internals`; the squared camera distance
is a possibly-NaN float, hence `Option ℚ`. -/
structure Internals where
  entity : ℕ
  transparent : Bool
  centroid : Vec3 ℚ
  camera_distance : Option ℚ
deriving DecidableEq, Repr

/-- The comparator passed to `sort_by` (lines 149–153):
`b.camera_distance.partial_cmp(&a.camera_distance).unwrap_or(Ordering::Equal)`. -/
def cmpInternals (a b : Internals) : Ordering :=
  (pcmp b.camera_distance a.camera_distance).getD .eq

/-- Insert an element into a list, before the first element the comparator
does not place strictly after it (one step of a stable comparison sort). -/
def insertBy {α : Type} (cmp : α → α → Ordering) (x : α) : List α → List α
  | [] => [x]
  | y :: ys =>
    match cmp x y with
    | .gt => y :: insertBy cmp x ys
    | _ => x :: y :: ys

/-- Stable comparison sort (`Vec::sort_by` is a stable sort; a total
terminating function of the comparator, which is never asked to be
consistent). -/
def sortBy {α : Type} (cmp : α → α → Ordering) : List α → List α
  | [] => []
  | x :: xs => insertBy cmp x (sortBy cmp xs)

/-- `Camera` component: what the system reads of it is its projection
matrix `camera.proj`. -/
structure Camera where
  proj : Mat4 ℚ
deriving DecidableEq, Repr

/-- Modelled from the spec: `Camera::standard_2d()`, the "default
orthographic-2D camera".  Its definition lies outside the excerpt and no
claim depends on its projection entries, so they are modelled as the
identity matrix. -/
def Camera.standard_2d : Camera := ⟨Mat4.identity⟩

/-- `BoundingSphere { center, radius }`. -/
structure BoundingSphere where
  center : Vec3 ℚ
  radius : ℚ
deriving DecidableEq, Repr

/-- `impl Default for BoundingSphere`: the unit sphere at the origin. -/
def BoundingSphere.default : BoundingSphere := ⟨Vec3.origin, 1⟩

/-- The ECS state read by one invocation of the system: the alive entities
in storage order, each entity's optional components (an entity is its id,
modelled as `ℕ`), and the optional `ActiveCamera` resource. -/
structure World where
  entities : List ℕ
  global : ℕ → Option (Mat4 ℚ)
  hidden : ℕ → Bool
  hidden_prop : ℕ → Bool
  transparent : ℕ → Bool
  bound : ℕ → Option BoundingSphere
  camera : ℕ → Option Camera
  active : Option ℕ

/-- The `(&camera, &global).join()` iterator: the (camera, transform) pairs
of entities carrying both components, in storage order. -/
def cameraJoin (w : World) : List (Camera × Mat4 ℚ) :=
  w.entities.filterMap fun e =>
    (w.camera e).bind fun c => (w.global e).map fun g => (c, g)

/-- `camera_join.get(a.entity, &entities)`: the pair for a designated entity
when it is alive and carries both a `Camera` and a `GlobalTransform`. -/
def cameraJoinGet (w : World) (e : ℕ) : Option (Camera × Mat4 ℚ) :=
  if e ∈ w.entities then
    (w.camera e).bind fun c => (w.global e).map fun g => (c, g)
  else none

/-- Camera selection (lines 116–119), the
`active.and_then(..).or_else(..).unwrap_or(..)` chain: the active camera's
pair when available, else the first pair of the join, else the default
standard-2D camera at the identity transform. -/
def selectCamera (w : World) : Camera × Mat4 ℚ :=
  ((w.active.bind fun a => cameraJoinGet w a).or (cameraJoin w).head?).getD
    (Camera.standard_2d, Mat4.identity)

/-- The `(&*entities, &global, bound.maybe(), !&hidden, !&hidden_prop)`
join: alive entities carrying a world transform and neither hidden marker,
paired with their transform, in storage order. -/
def candidateJoin (w : World) : List (ℕ × Mat4 ℚ) :=
  w.entities.filterMap fun e =>
    if w.hidden e || w.hidden_prop e then none
    else (w.global e).map fun g => (e, g)

/-- Line 129, `sphere.map_or(&origin, |s| &s.center)`: the local center of
an entity's cull sphere, the origin when it has no `BoundingSphere`. -/
def sphereCenter (w : World) (e : ℕ) : Vec3 ℚ :=
  ((w.bound e).map fun s => s.center).getD Vec3.origin

/-- Line 133, `sphere.map_or(1.0, |s| s.radius)`: the local radius of an
entity's cull sphere, 1 when it has no `BoundingSphere`. -/
def sphereRadius (w : World) (e : ℕ) : ℚ :=
  ((w.bound e).map fun s => s.radius).getD 1

/-- Line 134, `global.0[(0, 0)].max(global.0[(1, 1)]).max(global.0[(2, 2)])`:
the largest of the transform's three diagonal entries. -/
def maxDiag (g : Mat4 ℚ) : ℚ :=
  max (max g.m00 g.m11) g.m22

/-- Lines 128–136: each candidate's cull sphere: the world centroid is the
transform applied to the bounding sphere's center (origin when the
component is absent), the effective radius is the sphere's radius (1 when
absent) times the largest of the transform's three diagonal entries. -/
def candSpheres (w : World) : List (ℕ × Vec3 ℚ × ℚ) :=
  (candidateJoin w).map fun eg =>
    (eg.1, eg.2.transform_point (sphereCenter w eg.1),
     sphereRadius w eg.1 * maxDiag eg.2)

/-- Lines 124–144: the `centroids` buffer after the scan: candidates whose
sphere passes the frustum test, with transparency flag and squared camera
distance. -/
def internalsOf (w : World) (f : Frustum ℚ) (camCentroid : Vec3 ℚ) : List Internals :=
  ((candSpheres w).filter fun t => f.check_sphere t.2.1 t.2.2).map fun t =>
    ⟨t.1, w.transparent t.1, t.2.1, some (distance_squared t.2.1 camCentroid)⟩

/-- The `Visibility` resource: the unordered set of opaque visible entity
ids and the back-to-front ordered transparent entity sequence. -/
structure Visibility where
  visible_unordered : List ℕ
  visible_ordered : List ℕ
deriving DecidableEq, Repr

/-- Line 121: the camera's world centroid, its transform applied to the
origin. -/
def camCentroidOf (w : World) : Vec3 ℚ :=
  (selectCamera w).2.transform_point Vec3.origin

/-- Line 122:
`Frustum::new(camera.proj * camera_transform.0.try_inverse().unwrap())`;
`none` models the `unwrap` panic on a non-invertible camera transform. -/
def frustumOf (sqrt : ℚ → ℚ) (w : World) : Option (Frustum ℚ) :=
  ((selectCamera w).2.try_inverse).map fun inv =>
    Frustum.new sqrt ((selectCamera w).1.proj.mul inv)

/-- `VisibilitySortingSystem::run`: `none` models the panic on a
non-invertible camera transform, which aborts the frame before the
`Visibility` resource is touched; otherwise the fully republished
resource (lines 145–166). -/
def runSystem (sqrt : ℚ → ℚ) (w : World) : Option Visibility :=
  (frustumOf sqrt w).map fun f =>
    let centroids := internalsOf w f (camCentroidOf w)
    let transp := sortBy cmpInternals (centroids.filter fun c => c.transparent)
    ⟨(centroids.filter fun c => !c.transparent).map fun c => c.entity,
     transp.map fun c => c.entity⟩

/-- The `Visibility` resource after the frame, given its prior value `v`:
on the fatal panic the prior value persists untouched. -/
def runPublish (sqrt : ℚ → ℚ) (w : World) (v : Visibility) : Visibility :=
  (runSystem sqrt w).getD v

/-- `check_sphere` holds iff every plane keeps the sphere strictly inside the
`> -radius` half-space. -/
lemma check_sphere_iff {α : Type} [LinearOrderedField α]
    (f : Frustum α) (c : Vec3 α) (r : α) :
    f.check_sphere c r = true ↔ ∀ p ∈ f.planes, p.dot3 c + p.w > -r := by
  simp only [Frustum.check_sphere, List.all_eq_true, Bool.not_eq_true',
    decide_eq_false_iff_not]
  exact forall₂_congr fun p _ => not_le

/-- C1: `Frustum::check_sphere(C, R)` returns `true` iff for every one of the
planes, `dot(plane.normal, C) + plane.w > -R`; equivalently it returns `false`
exactly when some plane has `dot(plane.normal, C) + plane.w <= -R`. -/
theorem check_sphere_true_iff_all_planes (f : Frustum ℚ) (c : Vec3 ℚ) (r : ℚ) :
    (f.check_sphere c r = true ↔ ∀ p ∈ f.planes, p.dot3 c + p.w > -r) ∧
    (f.check_sphere c r = false ↔ ∃ p ∈ f.planes, p.dot3 c + p.w ≤ -r) := by
  constructor
  · exact check_sphere_iff f c r
  · rw [← Bool.not_eq_true, not_iff_comm, check_sphere_iff]
    push_neg
    simp

/-- C8: `check_sphere` is monotone in the radius: a sphere visible at radius
`R` stays visible at any larger radius `R'`. -/
theorem check_sphere_mono_radius (f : Frustum ℚ) (c : Vec3 ℚ) (r r' : ℚ)
    (hlt : r < r') (h : f.check_sphere c r = true) :
    f.check_sphere c r' = true := by
  rw [check_sphere_iff] at h ⊢
  intro p hp
  calc -r' < -r := by linarith
  _ < p.dot3 c + p.w := h p hp

/-- Witness for C8 at a concrete frustum, center and radii. -/
theorem check_sphere_mono_radius_witness :
    Frustum.check_sphere ⟨[⟨1, 0, 0, 0⟩]⟩ ⟨0, 0, 0⟩ (3 : ℚ) = true ∧
    Frustum.check_sphere ⟨[⟨1, 0, 0, 0⟩]⟩ ⟨0, 0, 0⟩ (5 : ℚ) = true :=
  ⟨by norm_num [Frustum.check_sphere, Vec4.dot3],
   check_sphere_mono_radius ⟨[⟨1, 0, 0, 0⟩]⟩ ⟨0, 0, 0⟩ 3 5 (by norm_num)
     (by norm_num [Frustum.check_sphere, Vec4.dot3])⟩

/-- C10: if some plane satisfies `dot(normal, C) + w = -R` exactly (sphere
fully outside and tangent), `check_sphere` returns `false`: the exclusion
threshold is inclusive of the tangent case. -/
theorem check_sphere_tangent_excluded (f : Frustum ℚ) (c : Vec3 ℚ) (r : ℚ)
    (p : Vec4 ℚ) (hp : p ∈ f.planes) (he : p.dot3 c + p.w = -r) :
    f.check_sphere c r = false := by
  rw [← Bool.not_eq_true, check_sphere_iff]
  push_neg
  exact ⟨p, hp, le_of_eq he⟩

/-- Witness for C10: a sphere of radius 2 tangent to the plane `x = 2` from
outside is culled. -/
theorem check_sphere_tangent_excluded_witness :
    Frustum.check_sphere ⟨[⟨1, 0, 0, 0⟩]⟩ ⟨-2, 0, 0⟩ (2 : ℚ) = false :=
  check_sphere_tangent_excluded ⟨[⟨1, 0, 0, 0⟩]⟩ ⟨-2, 0, 0⟩ 2 ⟨1, 0, 0, 0⟩
    (by simp) (by norm_num [Vec4.dot3])

/-- `rcmp a b` is `gt` exactly when `b < a`. -/
lemma rcmp_eq_gt {a b : ℚ} : rcmp a b = .gt ↔ b < a := by
  unfold rcmp
  rcases lt_trichotomy a b with h | h | h
  · simp [h, asymm h]
  · subst h; simp
  · simp [asymm h, h.ne', h]

/-- The sort comparator relation "not strictly after" is total: the
comparator never orders both `a` after `b` and `b` after `a`. -/
lemma cmpInternals_total (a b : Internals) (h : cmpInternals a b = .gt) :
    cmpInternals b a ≠ .gt := by
  rcases ha : a.camera_distance with _ | va <;>
    rcases hb : b.camera_distance with _ | vb <;>
      simp [cmpInternals, pcmp, ha, hb] at h ⊢
  rw [rcmp_eq_gt] at h ⊢
  exact asymm h

/-- Unfolding "not strictly after" for the sort comparator: either a
distance is unorderable (NaN), or the distances are in descending order. -/
lemma cmpInternals_ne_gt {a b : Internals} (h : cmpInternals a b ≠ .gt) :
    a.camera_distance = none ∨ b.camera_distance = none ∨
      b.camera_distance.getD 0 ≤ a.camera_distance.getD 0 := by
  rcases ha : a.camera_distance with _ | va
  · exact Or.inl rfl
  rcases hb : b.camera_distance with _ | vb
  · exact Or.inr (Or.inl rfl)
  refine Or.inr (Or.inr ?_)
  simp only [cmpInternals, pcmp, ha, hb, Option.getD_some] at h ⊢
  exact not_lt.mp fun hlt => h (rcmp_eq_gt.mpr hlt)

/-- Inserting adds one to the length. -/
lemma insertBy_length {α : Type} (cmp : α → α → Ordering) (x : α) :
    ∀ l : List α, (insertBy cmp x l).length = l.length + 1
  | [] => rfl
  | y :: ys => by
    rw [insertBy]
    cases hc : cmp x y <;> simp [insertBy_length cmp x ys]

/-- Membership after insertion. -/
lemma mem_insertBy {α : Type} (cmp : α → α → Ordering) (x a : α) :
    ∀ l : List α, a ∈ insertBy cmp x l ↔ a = x ∨ a ∈ l
  | [] => by simp [insertBy]
  | y :: ys => by
    rw [insertBy]
    cases hc : cmp x y <;> simp [mem_insertBy cmp x a ys] <;> tauto

/-- The head of an insertion is the new element or the old head. -/
lemma insertBy_head {α : Type} (cmp : α → α → Ordering) (x : α) :
    ∀ l : List α, (insertBy cmp x l).head? = some x ∨ (insertBy cmp x l).head? = l.head?
  | [] => Or.inl rfl
  | y :: ys => by
    rw [insertBy]
    cases hc : cmp x y <;> simp

/-- Insertion preserves the adjacent-pair ("chain") property of the
"not strictly after" relation, provided the comparator relation is total. -/
lemma chain'_insertBy {α : Type} (cmp : α → α → Ordering)
    (htot : ∀ a b, cmp a b = .gt → cmp b a ≠ .gt) (x : α) :
    ∀ l : List α, l.Chain' (fun a b => cmp a b ≠ .gt) →
      (insertBy cmp x l).Chain' (fun a b => cmp a b ≠ .gt)
  | [], _ => List.chain'_singleton x
  | y :: ys, hl => by
    rw [insertBy]
    rcases List.chain'_cons'.mp hl with ⟨hhd, htl⟩
    cases hc : cmp x y with
    | gt =>
      refine List.chain'_cons'.mpr ⟨?_, chain'_insertBy cmp htot x ys htl⟩
      intro z hz
      rcases insertBy_head cmp x ys with h | h
      · rw [h] at hz
        simp only [Option.mem_def, Option.some_inj] at hz
        rw [← hz]
        exact htot x y hc
      · rw [h] at hz
        exact hhd z hz
    | lt =>
      refine List.chain'_cons'.mpr ⟨?_, hl⟩
      intro z hz
      simp only [List.head?_cons, Option.mem_def, Option.some_inj] at hz
      rw [← hz, hc]
      simp
    | eq =>
      refine List.chain'_cons'.mpr ⟨?_, hl⟩
      intro z hz
      simp only [List.head?_cons, Option.mem_def, Option.some_inj] at hz
      rw [← hz, hc]
      simp

/-- `sortBy` preserves length (the sort is total and terminates on every
input, whatever the comparator does). -/
lemma sortBy_length {α : Type} (cmp : α → α → Ordering) :
    ∀ l : List α, (sortBy cmp l).length = l.length
  | [] => rfl
  | x :: xs => by simp [sortBy, insertBy_length, sortBy_length cmp xs]

/-- `sortBy` preserves membership. -/
lemma mem_sortBy {α : Type} (cmp : α → α → Ordering) (a : α) :
    ∀ l : List α, a ∈ sortBy cmp l ↔ a ∈ l
  | [] => Iff.rfl
  | x :: xs => by simp [sortBy, mem_insertBy, mem_sortBy cmp a xs]

/-- The output of `sortBy` satisfies the adjacent-pair property of the
"not strictly after" relation when the comparator relation is total. -/
lemma chain'_sortBy {α : Type} (cmp : α → α → Ordering)
    (htot : ∀ a b, cmp a b = .gt → cmp b a ≠ .gt) :
    ∀ l : List α, (sortBy cmp l).Chain' (fun a b => cmp a b ≠ .gt)
  | [] => List.chain'_nil
  | x :: xs => chain'_insertBy cmp htot x (sortBy cmp xs) (chain'_sortBy cmp htot xs)

/-- C2: the transparent survivors sorted by `sort_by` with the comparator
`b.camera_distance.partial_cmp(&a.camera_distance).unwrap_or(Equal)` — the
sequence published as `visible_ordered` by `runSystem` — are in descending
(back-to-front) squared-camera-distance order at every adjacent pair; an
unorderable (NaN) distance is treated as equal, and the sort is total and
terminating on every input (in particular it preserves the length). -/
theorem sorted_transparents_back_to_front (l : List Internals) :
    ((sortBy cmpInternals l).length = l.length ∧
    ∀ (i : ℕ) (a b : Internals),
      (sortBy cmpInternals l)[i]? = some a →
      (sortBy cmpInternals l)[i + 1]? = some b →
      a.camera_distance = none ∨ b.camera_distance = none ∨
        b.camera_distance.getD 0 ≤ a.camera_distance.getD 0) ∧
    ∀ (squ : ℚ → ℚ) (w : World) (vis : Visibility),
      runSystem squ w = some vis → ∃ f, frustumOf squ w = some f ∧
        vis.visible_ordered =
          (sortBy cmpInternals
            ((internalsOf w f (camCentroidOf w)).filter fun c => c.transparent)).map
            (fun c => c.entity) := by
  constructor
  · refine ⟨sortBy_length _ l, fun i a b ha hb => ?_⟩
    have hc := chain'_sortBy cmpInternals cmpInternals_total l
    rw [List.chain'_iff_get] at hc
    obtain ⟨hia, rfl⟩ := List.getElem?_eq_some.mp ha
    obtain ⟨hib, rfl⟩ := List.getElem?_eq_some.mp hb
    have h2 := hc i (by omega)
    simpa [List.get_eq_getElem] using cmpInternals_ne_gt h2
  · intro squ w vis hrun
    unfold runSystem at hrun
    rcases Option.map_eq_some'.mp hrun with ⟨f, hf, hv⟩
    subst hv
    exact ⟨f, hf, rfl⟩

/-- Witness for C2: two transparent records at squared distances 4 and 25;
after sorting, index 0 holds distance 25 and index 1 distance 4. -/
theorem sorted_transparents_back_to_front_witness :
    (⟨2, true, ⟨0, 0, 0⟩, some 25⟩ : Internals).camera_distance = none ∨
    (⟨1, true, ⟨0, 0, 0⟩, some 4⟩ : Internals).camera_distance = none ∨
    (⟨1, true, ⟨0, 0, 0⟩, some 4⟩ : Internals).camera_distance.getD 0 ≤
      (⟨2, true, ⟨0, 0, 0⟩, some 25⟩ : Internals).camera_distance.getD 0 :=
  (sorted_transparents_back_to_front
      [⟨1, true, ⟨0, 0, 0⟩, some 4⟩, ⟨2, true, ⟨0, 0, 0⟩, some 25⟩]).1.2 0
    ⟨2, true, ⟨0, 0, 0⟩, some 25⟩ ⟨1, true, ⟨0, 0, 0⟩, some 4⟩
    (by norm_num [sortBy, insertBy, cmpInternals, pcmp, rcmp])
    (by norm_num [sortBy, insertBy, cmpInternals, pcmp, rcmp])

/-- C9: over the reals with the exact square root, every plane produced by
`Frustum::new` has an xyz normal of unit magnitude, provided each combined
row sum/difference has a nonzero xyz part (its squared norm is nonzero);
the normalization divides each plane vector by the magnitude of its xyz
component. -/
theorem frustum_new_unit_normals (a : Mat4 ℝ)
    (h : ∀ p ∈ Frustum.rawPlanes a, p.xyzSq ≠ 0) :
    ∀ q ∈ (Frustum.new Real.sqrt a).planes, Real.sqrt q.xyzSq = 1 := by
  intro q hq
  simp only [Frustum.new, List.mem_map] at hq
  obtain ⟨p, hp, rfl⟩ := hq
  have h0 : p.xyzSq ≠ 0 := h p hp
  have hnn : (0 : ℝ) ≤ p.xyzSq := by
    unfold Vec4.xyzSq
    have hx := mul_self_nonneg p.x
    have hy := mul_self_nonneg p.y
    have hz := mul_self_nonneg p.z
    linarith
  have hsq : (p.scale (1 / Real.sqrt p.xyzSq)).xyzSq
      = p.xyzSq * (1 / Real.sqrt p.xyzSq) ^ 2 := by
    unfold Vec4.scale Vec4.xyzSq
    ring
  rw [Real.sqrt_eq_one, hsq, div_pow, one_pow, Real.sq_sqrt hnn]
  field_simp

/-- Witness for C9 at the identity matrix (whose six raw planes all have
squared xyz norm 1), instantiated at its first normalized plane. -/
theorem frustum_new_unit_normals_witness :
    Real.sqrt ((Vec4.scale ⟨1, 0, 0, 1⟩
      (1 / Real.sqrt ((⟨1, 0, 0, 1⟩ : Vec4 ℝ).xyzSq))).xyzSq) = 1 :=
  frustum_new_unit_normals Mat4.identity
    (by
      intro p hp
      simp only [Frustum.rawPlanes, Mat4.identity, Mat4.row0, Mat4.row1, Mat4.row2,
        Mat4.row3, Vec4.add, Vec4.sub, List.mem_cons, List.not_mem_nil, or_false] at hp
      rcases hp with rfl | rfl | rfl | rfl | rfl | rfl <;> norm_num [Vec4.xyzSq])
    (Vec4.scale ⟨1, 0, 0, 1⟩ (1 / Real.sqrt ((⟨1, 0, 0, 1⟩ : Vec4 ℝ).xyzSq)))
    (by
      simp only [Frustum.new, List.mem_map]
      exact ⟨⟨1, 0, 0, 1⟩, by norm_num [Frustum.rawPlanes, Mat4.identity,
        Mat4.row0, Mat4.row1, Mat4.row2, Mat4.row3, Vec4.add, Vec4.sub], rfl⟩)

/-- Membership in the candidate join: exactly the alive entities with a
world transform and neither hidden marker. -/
lemma mem_candidateJoin {w : World} {e : ℕ} {g : Mat4 ℚ} :
    (e, g) ∈ candidateJoin w ↔
      e ∈ w.entities ∧ w.hidden e = false ∧ w.hidden_prop e = false ∧
        w.global e = some g := by
  unfold candidateJoin
  rw [List.mem_filterMap]
  constructor
  · rintro ⟨a, ha, hfa⟩
    by_cases hH : (w.hidden a || w.hidden_prop a) = true
    · rw [if_pos hH] at hfa
      exact absurd hfa (by simp)
    · rw [if_neg hH] at hfa
      rcases Option.map_eq_some'.mp hfa with ⟨ga, hga, heq⟩
      injection heq with h1 h2
      subst h1
      subst h2
      simp only [Bool.or_eq_true, not_or, Bool.not_eq_true] at hH
      exact ⟨ha, hH.1, hH.2, hga⟩
  · rintro ⟨he, hh, hp, hg⟩
    exact ⟨e, he, by simp [hh, hp, hg]⟩

/-- Each record of the `centroids` buffer belongs to a candidate entity and
carries that entity's transparency flag. -/
lemma internalsOf_entity {w : World} {f : Frustum ℚ} {cc : Vec3 ℚ} {c : Internals}
    (hc : c ∈ internalsOf w f cc) :
    (∃ g, (c.entity, g) ∈ candidateJoin w) ∧
      c.transparent = w.transparent c.entity := by
  unfold internalsOf at hc
  rcases List.mem_map.mp hc with ⟨t, ht, hct⟩
  have htc : t ∈ candSpheres w := (List.mem_filter.mp ht).1
  unfold candSpheres at htc
  rcases List.mem_map.mp htc with ⟨eg, heg, hteg⟩
  subst hteg
  subst hct
  exact ⟨⟨eg.2, by rwa [Prod.mk.eta]⟩, rfl⟩

/-- A candidate whose cull sphere passes the frustum test contributes its
record to the `centroids` buffer. -/
lemma mem_internalsOf_of_candidate {w : World} {f : Frustum ℚ} (cc : Vec3 ℚ)
    {e : ℕ} {g : Mat4 ℚ} (hc : (e, g) ∈ candidateJoin w)
    (hpass : f.check_sphere (g.transform_point (sphereCenter w e))
      (sphereRadius w e * maxDiag g) = true) :
    (⟨e, w.transparent e, g.transform_point (sphereCenter w e),
        some (distance_squared (g.transform_point (sphereCenter w e))
          cc)⟩ : Internals) ∈ internalsOf w f cc := by
  unfold internalsOf
  refine List.mem_map.mpr
    ⟨(e, g.transform_point (sphereCenter w e), sphereRadius w e * maxDiag g), ?_, rfl⟩
  refine List.mem_filter.mpr ⟨?_, hpass⟩
  unfold candSpheres
  exact List.mem_map.mpr ⟨(e, g), hc, rfl⟩

/-- Unpacking a successful run: the frustum exists and both output
collections are the published projections of the `centroids` buffer. -/
lemma runSystem_some {squ : ℚ → ℚ} {w : World} {vis : Visibility}
    (hrun : runSystem squ w = some vis) :
    ∃ f, frustumOf squ w = some f ∧
      vis.visible_unordered =
        ((internalsOf w f (camCentroidOf w)).filter fun c => !c.transparent).map
          (fun c => c.entity) ∧
      vis.visible_ordered =
        (sortBy cmpInternals
          ((internalsOf w f (camCentroidOf w)).filter fun c => c.transparent)).map
          (fun c => c.entity) := by
  unfold runSystem at hrun
  rcases Option.map_eq_some'.mp hrun with ⟨f, hf, hv⟩
  subst hv
  exact ⟨f, hf, rfl, rfl⟩

/-- C3: an entity carrying `Hidden` or `HiddenPropagate` when the system
runs appears in neither `visible_unordered` nor `visible_ordered` after a
completed run, whatever its bounding sphere and the camera configuration. -/
theorem hidden_entities_never_visible (squ : ℚ → ℚ) (w : World) (vis : Visibility)
    (e : ℕ) (hrun : runSystem squ w = some vis)
    (hh : w.hidden e = true ∨ w.hidden_prop e = true) :
    e ∉ vis.visible_unordered ∧ e ∉ vis.visible_ordered := by
  rcases runSystem_some hrun with ⟨f, _, hu, ho⟩
  have key : ∀ c ∈ internalsOf w f (camCentroidOf w), c.entity ≠ e := by
    intro c hc hce
    rcases internalsOf_entity hc with ⟨⟨g, hg⟩, _⟩
    rcases mem_candidateJoin.mp hg with ⟨_, hH, hP, _⟩
    rw [← hce] at hh
    rw [hH, hP] at hh
    simp at hh
  constructor
  · rw [hu]
    intro hmem
    rcases List.mem_map.mp hmem with ⟨c, hc, hce⟩
    exact key c (List.mem_filter.mp hc).1 hce
  · rw [ho]
    intro hmem
    rcases List.mem_map.mp hmem with ⟨c, hc, hce⟩
    exact key c (List.mem_filter.mp ((mem_sortBy _ _ _).mp hc)).1 hce

/-- C4: after a completed run the two collections are disjoint, and every
candidate (alive, transform-bearing, not hidden) whose cull sphere passes
the frustum test lands in exactly one of them: `visible_ordered` when it
carries `Transparent`, `visible_unordered` otherwise. -/
theorem visibility_partition (squ : ℚ → ℚ) (w : World) (vis : Visibility)
    (f : Frustum ℚ) (hrun : runSystem squ w = some vis)
    (hf : frustumOf squ w = some f) :
    (∀ e, ¬(e ∈ vis.visible_unordered ∧ e ∈ vis.visible_ordered)) ∧
    (∀ e g, e ∈ w.entities → w.global e = some g →
      w.hidden e = false → w.hidden_prop e = false →
      f.check_sphere (g.transform_point (sphereCenter w e))
        (sphereRadius w e * maxDiag g) = true →
      ((w.transparent e = true → e ∈ vis.visible_ordered ∧ e ∉ vis.visible_unordered) ∧
       (w.transparent e = false → e ∈ vis.visible_unordered ∧ e ∉ vis.visible_ordered))) := by
  rcases runSystem_some hrun with ⟨f', hf', hu, ho⟩
  rw [hf'] at hf
  injection hf with hf
  subst hf
  have hmemU : ∀ e, e ∈ vis.visible_unordered ↔
      ∃ c ∈ internalsOf w f' (camCentroidOf w), c.transparent = false ∧ c.entity = e := by
    intro e
    rw [hu]
    constructor
    · intro hm
      rcases List.mem_map.mp hm with ⟨c, hc, hce⟩
      rcases List.mem_filter.mp hc with ⟨hcm, hcp⟩
      exact ⟨c, hcm, by simpa using hcp, hce⟩
    · rintro ⟨c, hcm, hcp, hce⟩
      exact List.mem_map.mpr ⟨c, List.mem_filter.mpr ⟨hcm, by simp [hcp]⟩, hce⟩
  have hmemO : ∀ e, e ∈ vis.visible_ordered ↔
      ∃ c ∈ internalsOf w f' (camCentroidOf w), c.transparent = true ∧ c.entity = e := by
    intro e
    rw [ho]
    constructor
    · intro hm
      rcases List.mem_map.mp hm with ⟨c, hc, hce⟩
      rcases List.mem_filter.mp ((mem_sortBy _ _ _).mp hc) with ⟨hcm, hcp⟩
      exact ⟨c, hcm, hcp, hce⟩
    · rintro ⟨c, hcm, hcp, hce⟩
      exact List.mem_map.mpr
        ⟨c, (mem_sortBy _ _ _).mpr (List.mem_filter.mpr ⟨hcm, hcp⟩), hce⟩
  have hdisj : ∀ e, ¬(e ∈ vis.visible_unordered ∧ e ∈ vis.visible_ordered) := by
    rintro e ⟨h1, h2⟩
    rcases (hmemU e).mp h1 with ⟨c1, hc1, ht1, he1⟩
    rcases (hmemO e).mp h2 with ⟨c2, hc2, ht2, he2⟩
    have hw1 : w.transparent e = false := by
      rw [← he1, ← (internalsOf_entity hc1).2]
      exact ht1
    have hw2 : w.transparent e = true := by
      rw [← he2, ← (internalsOf_entity hc2).2]
      exact ht2
    rw [hw1] at hw2
    cases hw2
  refine ⟨hdisj, fun e g he hg hH hP hpass => ?_⟩
  have hc : (e, g) ∈ candidateJoin w := mem_candidateJoin.mpr ⟨he, hH, hP, hg⟩
  have hmem := mem_internalsOf_of_candidate (camCentroidOf w) hc hpass
  constructor
  · intro ht
    have hin : e ∈ vis.visible_ordered := (hmemO e).mpr ⟨_, hmem, ht, rfl⟩
    exact ⟨hin, fun hun => hdisj e ⟨hun, hin⟩⟩
  · intro ht
    have hin : e ∈ vis.visible_unordered := (hmemU e).mpr ⟨_, hmem, ht, rfl⟩
    exact ⟨hin, fun hor => hdisj e ⟨hin, hor⟩⟩

/-- C5: the run aborts (the only failure point, the `unwrap` of
`try_inverse`) exactly when the selected camera transform's determinant
vanishes — i.e. the transform is not invertible — and in that case the
`Visibility` resource keeps its prior value untouched, with no partial
update. -/
theorem run_aborts_iff_noninvertible (squ : ℚ → ℚ) (w : World) (v : Visibility) :
    (runSystem squ w = none ↔ (selectCamera w).2.det = 0) ∧
    ((selectCamera w).2.det = 0 → runPublish squ w v = v) := by
  have h1 : runSystem squ w = none ↔ (selectCamera w).2.det = 0 := by
    unfold runSystem frustumOf Mat4.try_inverse
    by_cases hd : (selectCamera w).2.det = 0 <;> simp [hd]
  refine ⟨h1, fun hd => ?_⟩
  unfold runPublish
  rw [h1.mpr hd]
  rfl

/-- C6: camera selection follows the fallback chain: the designated active
camera when it has both components; else the first (camera, transform)
pair of the join; else the default standard-2D camera at the identity
transform, with no error surfaced. -/
theorem camera_selection_fallback (w : World) :
    (∀ a pr, w.active = some a → cameraJoinGet w a = some pr →
      selectCamera w = pr) ∧
    (∀ pr rest, (w.active = none ∨ ∃ a, w.active = some a ∧ cameraJoinGet w a = none) →
      cameraJoin w = pr :: rest → selectCamera w = pr) ∧
    ((w.active = none ∨ ∃ a, w.active = some a ∧ cameraJoinGet w a = none) →
      cameraJoin w = [] → selectCamera w = (Camera.standard_2d, Mat4.identity)) := by
  refine ⟨?_, ?_, ?_⟩
  · intro a pr ha hpr
    unfold selectCamera
    rw [ha]
    simp [hpr]
  · intro pr rest hfail hj
    unfold selectCamera
    rcases hfail with h | ⟨a, ha, hnone⟩
    · rw [h, hj]
      rfl
    · rw [ha, hj]
      simp [hnone]
  · intro hfail hj
    unfold selectCamera
    rcases hfail with h | ⟨a, ha, hnone⟩
    · rw [h, hj]
      rfl
    · rw [ha, hj]
      simp [hnone]

/-- C7: the sphere used in the cull test for a candidate entity: center and
radius come from its `BoundingSphere` component or the default unit sphere
at the origin; the world centroid is the transform applied to the local
center; the effective radius is the local radius times the largest of the
transform's diagonal entries (0,0), (1,1), (2,2). -/
theorem cull_sphere_from_bound_or_default (w : World) (e : ℕ) (g : Mat4 ℚ)
    (hc : (e, g) ∈ candidateJoin w) :
    (e, g.transform_point ((w.bound e).getD BoundingSphere.default).center,
      ((w.bound e).getD BoundingSphere.default).radius *
        max (max g.m00 g.m11) g.m22) ∈ candSpheres w := by
  have hcen : ((w.bound e).getD BoundingSphere.default).center = sphereCenter w e := by
    unfold sphereCenter BoundingSphere.default
    cases w.bound e <;> rfl
  have hrad : ((w.bound e).getD BoundingSphere.default).radius = sphereRadius w e := by
    unfold sphereRadius BoundingSphere.default
    cases w.bound e <;> rfl
  rw [hcen, hrad]
  unfold candSpheres
  exact List.mem_map.mpr ⟨(e, g), hc, rfl⟩

/-- Witness for C3: a world whose only entity is hidden; after the run it is
in neither collection. -/
theorem hidden_entities_never_visible_witness :
    (0 : ℕ) ∉ (Visibility.mk [] []).visible_unordered ∧
    (0 : ℕ) ∉ (Visibility.mk [] []).visible_ordered :=
  hidden_entities_never_visible (fun _ => 1)
    ⟨[0], fun _ => some Mat4.identity, fun _ => true, fun _ => false,
      fun _ => false, fun _ => none, fun _ => none, none⟩
    ⟨[], []⟩ 0
    (by norm_num [runSystem, frustumOf, selectCamera, cameraJoinGet, cameraJoin,
      camCentroidOf, Camera.standard_2d, Mat4.try_inverse, Mat4.det,
      Mat4.minor00, Mat4.minor01, Mat4.minor02, Mat4.minor03, det3,
      Mat4.identity, Mat4.mul, Mat4.transform_point, Frustum.new,
      Frustum.rawPlanes, Frustum.check_sphere, Vec4.add, Vec4.sub, Vec4.scale,
      Vec4.xyzSq, Vec4.dot3, Vec3.origin, internalsOf, candSpheres,
      candidateJoin, sphereCenter, sphereRadius, maxDiag, sortBy, insertBy,
      cmpInternals, pcmp, rcmp, distance_squared])
    (Or.inl rfl)

/-- Witness for C4: a world with one opaque in-frustum entity; it lands in
`visible_unordered` and not in `visible_ordered`. -/
theorem visibility_partition_witness :
    (0 : ℕ) ∈ (Visibility.mk [0] []).visible_unordered ∧
    (0 : ℕ) ∉ (Visibility.mk [0] []).visible_ordered :=
  ((visibility_partition (fun _ => 1)
      ⟨[0], fun _ => some Mat4.identity, fun _ => false, fun _ => false,
        fun _ => false, fun _ => none, fun _ => none, none⟩
      ⟨[0], []⟩
      ⟨[⟨1, 0, 0, 1⟩, ⟨-1, 0, 0, 1⟩, ⟨0, -1, 0, 1⟩, ⟨0, 1, 0, 1⟩,
        ⟨0, 0, 1, 1⟩, ⟨0, 0, -1, 1⟩]⟩
      (by norm_num [runSystem, frustumOf, selectCamera, cameraJoinGet, cameraJoin,
        camCentroidOf, Camera.standard_2d, Mat4.try_inverse, Mat4.det,
        Mat4.minor00, Mat4.minor01, Mat4.minor02, Mat4.minor03, Mat4.minor10,
        Mat4.minor11, Mat4.minor12, Mat4.minor13, Mat4.minor20, Mat4.minor21,
        Mat4.minor22, Mat4.minor23, Mat4.minor30, Mat4.minor31, Mat4.minor32,
        Mat4.minor33, det3, Mat4.identity, Mat4.mul, Mat4.transform_point,
        Mat4.row0, Mat4.row1, Mat4.row2, Mat4.row3, Frustum.new,
        Frustum.rawPlanes, Frustum.check_sphere, Vec4.add, Vec4.sub,
        Vec4.scale, Vec4.xyzSq, Vec4.dot3, Vec3.origin, internalsOf, candSpheres,
        candidateJoin, sphereCenter, sphereRadius, maxDiag, sortBy, insertBy,
        cmpInternals, pcmp, rcmp, distance_squared, max_def,
        List.filterMap_cons, List.filterMap_nil])
      (by norm_num [frustumOf, selectCamera, cameraJoinGet, cameraJoin,
        Camera.standard_2d, Mat4.try_inverse, Mat4.det,
        Mat4.minor00, Mat4.minor01, Mat4.minor02, Mat4.minor03, Mat4.minor10,
        Mat4.minor11, Mat4.minor12, Mat4.minor13, Mat4.minor20, Mat4.minor21,
        Mat4.minor22, Mat4.minor23, Mat4.minor30, Mat4.minor31, Mat4.minor32,
        Mat4.minor33, det3, Mat4.identity, Mat4.mul, Mat4.row0, Mat4.row1,
        Mat4.row2, Mat4.row3, Frustum.new, Frustum.rawPlanes, Vec4.add,
        Vec4.sub, Vec4.scale, Vec4.xyzSq])).2
    0 Mat4.identity (by norm_num) rfl rfl rfl
    (by norm_num [Frustum.check_sphere, Vec4.dot3, sphereCenter, sphereRadius,
      maxDiag, Mat4.transform_point, Mat4.identity, Vec3.origin, max_def])).2 rfl

/-- Witness for C5: a camera whose world transform is the zero matrix
(determinant 0): the resource keeps its prior value. -/
theorem run_aborts_iff_noninvertible_witness :
    runPublish (fun _ => 1)
      ⟨[0], fun _ => some ⟨0, 0, 0, 0, 0, 0, 0, 0, 0, 0, 0, 0, 0, 0, 0, 0⟩,
        fun _ => false, fun _ => false, fun _ => false, fun _ => none,
        fun _ => some ⟨Mat4.identity⟩, none⟩
      ⟨[5], [6]⟩ = ⟨[5], [6]⟩ :=
  (run_aborts_iff_noninvertible (fun _ => 1) _ _).2
    (by norm_num [selectCamera, cameraJoin, cameraJoinGet, Mat4.det,
      Mat4.minor00, Mat4.minor01, Mat4.minor02, Mat4.minor03, det3])

/-- Witness for C6, one world per link of the fallback chain: a designated
active camera, a join fallback, and the default camera. -/
theorem camera_selection_fallback_witness :
    selectCamera ⟨[7], fun _ => some Mat4.identity, fun _ => false, fun _ => false,
        fun _ => false, fun _ => none, fun _ => some ⟨Mat4.identity⟩, some 7⟩
      = (⟨Mat4.identity⟩, Mat4.identity) ∧
    selectCamera ⟨[3], fun _ => some Mat4.identity, fun _ => false, fun _ => false,
        fun _ => false, fun _ => none, fun _ => some ⟨Mat4.identity⟩, none⟩
      = (⟨Mat4.identity⟩, Mat4.identity) ∧
    selectCamera ⟨[], fun _ => none, fun _ => false, fun _ => false,
        fun _ => false, fun _ => none, fun _ => none, none⟩
      = (Camera.standard_2d, Mat4.identity) :=
  ⟨(camera_selection_fallback _).1 7 (⟨Mat4.identity⟩, Mat4.identity) rfl
      (by norm_num [cameraJoinGet]),
   ((camera_selection_fallback _).2.1 (⟨Mat4.identity⟩, Mat4.identity) []
      (Or.inl rfl)
      (by norm_num [cameraJoin, List.filterMap_cons, List.filterMap_nil])),
   ((camera_selection_fallback _).2.2 (Or.inl rfl)
      (by norm_num [cameraJoin, List.filterMap_nil]))⟩

/-- Witness for C7: an entity with `BoundingSphere {(1,1,1), 5}` and a
diagonal scale (2,3,4) transform: its cull sphere has world centroid
(2,3,4) and effective radius 5 × 4 = 20. -/
theorem cull_sphere_from_bound_or_default_witness :
    ((2 : ℕ), (⟨2, 3, 4⟩ : Vec3 ℚ), (20 : ℚ)) ∈ candSpheres
      ⟨[2], fun _ => some ⟨2, 0, 0, 0, 0, 3, 0, 0, 0, 0, 4, 0, 0, 0, 0, 1⟩,
        fun _ => false, fun _ => false, fun _ => false,
        fun _ => some ⟨⟨1, 1, 1⟩, 5⟩, fun _ => none, none⟩ := by
  have h := cull_sphere_from_bound_or_default
      ⟨[2], fun _ => some ⟨2, 0, 0, 0, 0, 3, 0, 0, 0, 0, 4, 0, 0, 0, 0, 1⟩,
        fun _ => false, fun _ => false, fun _ => false,
        fun _ => some ⟨⟨1, 1, 1⟩, 5⟩, fun _ => none, none⟩ 2
      ⟨2, 0, 0, 0, 0, 3, 0, 0, 0, 0, 4, 0, 0, 0, 0, 1⟩
      (by norm_num [candidateJoin])
  norm_num [BoundingSphere.default, Mat4.transform_point, max_def] at h
  exact h
